import Mathlib

/-!
Verification of the text-normalization core (`clean_content`) and the
answer-generation guard (`generate_answer`) of the RAG notebook
`src/04_rag-chain.ipynb`.

The Python code is shallowly embedded: strings are `List Char`, every
regex substitution of `clean_content` is translated to an executable
scan with the exact semantics of the concrete pattern it implements
(ordered alternation, leftmost match, greedy/lazy repetition resolved
for the concrete character classes involved), and the one fallible
operation (`sentences[0]`, an `IndexError` on an empty list) is
modelled with `Option`.
-/

namespace RagChain

/-- Character constants, by code point, for characters that the cleaning
patterns mention literally. -/
def apos : Char := Char.ofNat 39

def dquote : Char := Char.ofNat 34

def btick : Char := Char.ofNat 96

def lbrace : Char := Char.ofNat 123

def rbrace : Char := Char.ofNat 125

def lsquo : Char := Char.ofNat 0x2018

def rsquo : Char := Char.ofNat 0x2019

def ldquo : Char := Char.ofNat 0x201C

def rdquo : Char := Char.ofNat 0x201D

def hellip : Char := Char.ofNat 0x2026

def ndash : Char := Char.ofNat 0x2013

def mdash : Char := Char.ofNat 0x2014

/-- Python whitespace (`str.isspace` / regex class `\s` in unicode mode):
ASCII whitespace plus the unicode space code points. -/
def pyIsSpace (c : Char) : Bool :=
  let n := c.toNat
  n == 32 || (decide (9 ≤ n) && decide (n ≤ 13)) ||
  (decide (28 ≤ n) && decide (n ≤ 31)) ||
  n == 0x85 || n == 0xa0 || n == 0x1680 ||
  (decide (0x2000 ≤ n) && decide (n ≤ 0x200a)) ||
  n == 0x2028 || n == 0x2029 || n == 0x202f || n == 0x205f || n == 0x3000

/-- Regex class `[A-Z]` (ASCII uppercase only, as in Python `re`). -/
def isUpperAZ (c : Char) : Bool :=
  decide (65 ≤ c.toNat) && decide (c.toNat ≤ 90)

/-- Python `needle in haystack` for strings: substring containment
(case-sensitive; the empty needle is contained in everything). -/
def containsSub (pat : List Char) : List Char → Bool
  | [] => pat.isEmpty
  | c :: cs => pat.isPrefixOf (c :: cs) || containsSub pat cs

/-- Strip characters satisfying `p` from both ends of a list
(Python `str.strip` with a character class). -/
def pyStripChars (p : Char → Bool) (l : List Char) : List Char :=
  ((l.dropWhile p).reverse.dropWhile p).reverse

/-- Python `content.strip("[]")`: remove leading and trailing bracket
characters. -/
def stripBrackets (l : List Char) : List Char :=
  pyStripChars (fun c => c == '[' || c == ']') l

/-- Python `str.strip()` with no arguments: strip whitespace. -/
def pyStrip (l : List Char) : List Char :=
  pyStripChars pyIsSpace l

/-- Python `str.replace(pat, rep)` on `List Char`: replace every
non-overlapping occurrence left to right, never rescanning the
replacement text.  Structural on a fuel argument; one unit of fuel is
spent per consumed input character, so `l.length` fuel always
suffices (the patterns used are all nonempty; an empty pattern is a
no-op here). -/
def pyReplaceAux (pat rep : List Char) : Nat → List Char → List Char
  | _, [] => []
  | 0, l => l
  | Nat.succ f, c :: cs =>
    if !pat.isEmpty && pat.isPrefixOf (c :: cs) then
      rep ++ pyReplaceAux pat rep f (List.drop (pat.length - 1) cs)
    else
      c :: pyReplaceAux pat rep f cs

/-- Python `str.replace` wrapper supplying sufficient fuel. -/
def pyReplace (pat rep l : List Char) : List Char :=
  pyReplaceAux pat rep l.length l

/-- Join a list of fragments with a single space
(Python `' '.join(...)`). -/
def joinSpace : List (List Char) → List Char
  | [] => []
  | [s] => s
  | s :: s2 :: rest => s ++ ' ' :: joinSpace (s2 :: rest)

/-- Helper for the splitting regex: match `\s*` greedily and then
require the quote character `q` (used by the alternatives `',\s*'`
and `",\s*"`; since no whitespace character is a quote, greedy
matching with backtracking reduces to skipping the maximal
whitespace run and requiring `q` right after it). -/
def wsRunQuote (q : Char) (l : List Char) : Option (List Char) :=
  match l.dropWhile pyIsSpace with
  | c :: r => if c == q then some r else none
  | [] => none

/-- Try to match one delimiter of the sentence-splitting regex
`',\s*'|",\s*"|", '|', |(?<=[.!?])\s+(?=[A-Z])` at the head of `l`,
with `prev` the character immediately before `l` in the original
string (for the lookbehind of the last alternative).  Alternatives
are tried in the regex's order.  On success, returns the last
character consumed by the delimiter together with the remainder of
the string after the delimiter. -/
def trySplitDelim (prev : Option Char) (l : List Char) : Option (Char × List Char) :=
  match l with
  | [] => none
  | c1 :: rest1 =>
    if c1 == apos then
      match rest1 with
      | ',' :: rest2 =>
        match wsRunQuote apos rest2 with
        | some r => some (apos, r)
        | none =>
          match rest2 with
          | ' ' :: r => some (' ', r)
          | _ => none
      | _ => none
    else if c1 == dquote then
      match rest1 with
      | ',' :: rest2 =>
        match wsRunQuote dquote rest2 with
        | some r => some (dquote, r)
        | none =>
          match rest2 with
          | ' ' :: c :: r3 => if c == apos then some (apos, r3) else none
          | _ => none
      | _ => none
    else if pyIsSpace c1 &&
        (prev == some '.' || prev == some '!' || prev == some '?') then
      match l.dropWhile pyIsSpace with
      | c :: r =>
        if isUpperAZ c then some ((l.takeWhile pyIsSpace).getLastD ' ', c :: r)
        else none
      | [] => none
    else none

/-- Scanner for Python `re.split` with the sentence-splitting pattern:
emit the text between delimiter matches as fragments.  `cur` is the
current fragment accumulated in reverse, `acc` the finished
fragments.  Fuel decreases once per step while every step consumes
at least one input character, so `l.length` fuel suffices. -/
def splitAux : Nat → Option Char → List Char → List (List Char) → List Char → List (List Char)
  | _, _, cur, acc, [] => acc ++ [cur.reverse]
  | 0, _, cur, acc, l => acc ++ [cur.reverse ++ l]
  | Nat.succ f, prev, cur, acc, c :: cs =>
    match trySplitDelim prev (c :: cs) with
    | some (lastc, r) => splitAux f (some lastc) [] (acc ++ [cur.reverse]) r
    | none => splitAux f (some c) (c :: cur) acc cs

/-- Python `re.split(r"',\s*'|\",\s*\"|\", '|', |(?<=[.!?])\s+(?=[A-Z])", content)`. -/
def pySplitSentences (l : List Char) : List (List Char) :=
  splitAux l.length none [] [] l

/-- Sentence Segmenter: strip the surrounding list notation and split
into sentence-like fragments (first two statements of `clean_content`). -/
def segmentContent (s : String) : List (List Char) :=
  pySplitSentences (stripBrackets s.data)

/-- Site-banner marker of the naturalgasintel domain that triggers the
drop of the first 11 fragments. -/
def bannerMarker : List Char :=
  "Sign in to get the best natural gas news and data".data

/-- The fixed `stop_phrases` table of `clean_content`, in source order. -/
def stopPhrases : List (List Char) :=
  [ "The Sensi".data,
    "Recharge is part of NHST Global Publications AS and we are responsible for the data that you register with us".data,
    "Recharge is part of DN Media Group".data,
    "Ecofriend.Org".data,
    "EcoFriend.com".data,
    "Thank you for subscribing to the email newsletter.".data,
    "To use the full function of this web site, JavaScript needs to be enabled in your browser.".data,
    "This site uses Akismet to reduce spam. Learn how your comment data is processed.".data,
    "Please join in the discussion in the comments below.".data,
    "Advertise with CleanTechnica".data,
    "Copyright © 2023 CleanTechnica".data,
    "Solar Industry offers industry participants probing".data,
    "This website uses cookies to anonymously".data,
    "By submitting this form you agree to pv magazine using your data".data,
    "This content is protected by copyright and may not be reused".data,
    "© 2021 Natural Gas Intelligence. All rights reserved.".data ]

/-- Stop-phrase scan with an explicit phrase table: the
`for i, sentence in enumerate(sentences): if any(...): sentences = sentences[:i]; break`
loop keeps exactly the fragments before the first one containing any
phrase of the table as a substring. -/
def stopScanWith (phrases : List (List Char)) : List (List Char) → List (List Char)
  | [] => []
  | s :: rest =>
    if phrases.any (fun p => containsSub p s) then []
    else s :: stopScanWith phrases rest

/-- Boilerplate Truncator: the banner-triggered drop of the first 11
fragments followed by the stop-phrase scan.  The access `sentences[0]`
raises `IndexError` on an empty list, modelled by `none`. -/
def truncateFragments (l : List (List Char)) : Option (List (List Char)) :=
  match l with
  | [] => none
  | s0 :: _ =>
    some (stopScanWith stopPhrases
      (if containsSub bannerMarker s0 then l.drop 11 else l))

/-- Substitution `re.sub(r'[‘’]', "'", t)`: normalize curly single
quotes to the straight apostrophe. -/
def normQuotes (l : List Char) : List Char :=
  l.map fun c => if c == lsquo || c == rsquo then apos else c

/-- After a closing brace, try to complete the tail `\s*\),?` of the
brace-block pattern (greedy whitespace, a closing parenthesis, then an
optional comma). -/
def braceClose (l : List Char) : Option (List Char) :=
  match l.dropWhile pyIsSpace with
  | ')' :: ',' :: r => some r
  | ')' :: r => some r
  | _ => none

/-- Lazy `.*?\}` search (DOTALL): take the first closing brace after
which `braceClose` succeeds, extending the lazy middle past any
closing brace that does not complete the pattern. -/
def braceTail : List Char → Option (List Char)
  | [] => none
  | c :: cs =>
    if c == rbrace then
      match braceClose cs with
      | some r => some r
      | none => braceTail cs
    else braceTail cs

/-- Substitution `re.sub(r'\{.*?\}\s*\),?', '', t, flags=re.DOTALL)`:
remove code-like brace blocks.  Fuel-structural; each step consumes at
least one character, so `l.length` fuel suffices. -/
def subBracesAux : Nat → List Char → List Char
  | _, [] => []
  | 0, l => l
  | Nat.succ f, c :: cs =>
    if c == lbrace then
      match braceTail cs with
      | some r => subBracesAux f r
      | none => c :: subBracesAux f cs
    else c :: subBracesAux f cs

/-- Wrapper for the brace-block removal supplying sufficient fuel. -/
def subBraces (l : List Char) : List Char :=
  subBracesAux l.length l

/-- Literal head of the `window.dojoRequire` pattern. -/
def dojoPat : List Char := "window.dojoRequire".data

/-- Tail `\s*[,;]?` after the closing parenthesis of the
`window.dojoRequire` pattern: greedy whitespace then an optional comma
or semicolon. -/
def dojoAfterParen (l : List Char) : List Char :=
  match l.dropWhile pyIsSpace with
  | c :: r2 => if c == ',' || c == ';' then r2 else c :: r2
  | [] => []

/-- Lazy `.*?\)` (DOTALL): the match ends at the first closing
parenthesis. -/
def findCloseParen : List Char → Option (List Char)
  | [] => none
  | c :: cs => if c == ')' then some cs else findCloseParen cs

/-- Match the part of `window\.dojoRequire\s*\(.*?\)\s*[,;]?` that
follows the literal head: greedy whitespace, an opening parenthesis,
the lazy body up to the first closing parenthesis, then the optional
trailing comma or semicolon. -/
def dojoMatch (l : List Char) : Option (List Char) :=
  match l.dropWhile pyIsSpace with
  | c :: r2 =>
    if c == '(' then (findCloseParen r2).map dojoAfterParen else none
  | [] => none

/-- Substitution `re.sub(r'window\.dojoRequire\s*\(.*?\)\s*[,;]?', '', t, flags=re.DOTALL)`.
Fuel-structural; `l.length` fuel suffices. -/
def subDojoAux : Nat → List Char → List Char
  | _, [] => []
  | 0, l => l
  | Nat.succ f, c :: cs =>
    if dojoPat.isPrefixOf (c :: cs) then
      match dojoMatch (List.drop (dojoPat.length - 1) cs) with
      | some r => subDojoAux f r
      | none => c :: subDojoAux f cs
    else c :: subDojoAux f cs

/-- Wrapper for the `window.dojoRequire` removal supplying sufficient
fuel. -/
def subDojo (l : List Char) : List Char :=
  subDojoAux l.length l

/-- Substitution `re.sub(r'\( |\’ |”|“|…', lambda ..., t)` with the
replacement table `( ` → `(`, `’ ` → `’`, `”` → empty, `“` → empty,
`…` → empty, alternatives tried in the regex's order. -/
def subMisc : List Char → List Char
  | [] => []
  | [c] =>
    if c == rdquo || c == ldquo || c == hellip then [] else [c]
  | c :: c2 :: rest =>
    if c == '(' && c2 == ' ' then '(' :: subMisc rest
    else if c == rsquo && c2 == ' ' then rsquo :: subMisc rest
    else if c == rdquo || c == ldquo || c == hellip then subMisc (c2 :: rest)
    else c :: subMisc (c2 :: rest)

/-- Scanner for `re.sub(r'\s+', ' ', t)`: collapse every whitespace
run to a single space; `prevSpace` records whether the run is already
open. -/
def collapseWsAux (prevSpace : Bool) : List Char → List Char
  | [] => []
  | c :: cs =>
    if pyIsSpace c then
      if prevSpace then collapseWsAux true cs
      else ' ' :: collapseWsAux true cs
    else c :: collapseWsAux false cs

/-- The expression `re.sub(r'\s+', ' ', t).strip()` used twice in
`clean_content`. -/
def collapseWsStrip (l : List Char) : List Char :=
  pyStrip (collapseWsAux false l)

/-- Substitution `re.sub(r'[“”;:"\[\]`]', '', t)`: delete the listed
quote/bracket/backtick characters. -/
def removeQuoteBracketChars (l : List Char) : List Char :=
  l.filter fun c =>
    !(c == ldquo || c == rdquo || c == ';' || c == ':' || c == dquote ||
      c == '[' || c == ']' || c == btick)

/-- Punctuation class `[.,?!]` of the space-before-punctuation
substitution. -/
def isPunctCPQE (c : Char) : Bool :=
  c == '.' || c == ',' || c == '?' || c == '!'

/-- Scanner for `re.sub(r'\s+([.,?!])', r'\1', t)`: a whitespace run
immediately followed by punctuation is replaced by the punctuation
alone; `pending` buffers the current whitespace run in reverse. -/
def spacePunctAux (pending : List Char) : List Char → List Char
  | [] => pending.reverse
  | c :: cs =>
    if pyIsSpace c then spacePunctAux (c :: pending) cs
    else if isPunctCPQE c && !pending.isEmpty then c :: spacePunctAux [] cs
    else pending.reverse ++ c :: spacePunctAux [] cs

/-- Wrapper for the space-before-punctuation substitution. -/
def spacePunct (l : List Char) : List Char :=
  spacePunctAux [] l

/-- Dash class `[-–—]` of the dash substitution. -/
def isDashChar (c : Char) : Bool :=
  c == '-' || c == ndash || c == mdash

/-- Scanner for `re.sub(r'\s*[-–—]\s*', ' ', t)`: a dash with its
surrounding whitespace becomes a single space.  `pending` buffers a
whitespace run in reverse; `afterDash` records that the trailing
`\s*` of a match is still being consumed, during which a further dash
starts a new match. -/
def dashAux (pending : List Char) (afterDash : Bool) : List Char → List Char
  | [] => pending.reverse
  | c :: cs =>
    if afterDash then
      if pyIsSpace c then dashAux [] true cs
      else if isDashChar c then ' ' :: dashAux [] true cs
      else c :: dashAux [] false cs
    else
      if pyIsSpace c then dashAux (c :: pending) false cs
      else if isDashChar c then ' ' :: dashAux [] true cs
      else pending.reverse ++ c :: dashAux [] false cs

/-- Wrapper for the dash substitution. -/
def dashSub (l : List Char) : List Char :=
  dashAux [] false l

/-- Substitution `re.sub(r'[^\x00-\x7F]+', '', t)`: delete every
non-ASCII character. -/
def removeNonAscii (l : List Char) : List Char :=
  l.filter fun c => decide (c.toNat ≤ 127)

/-- Scanner for `re.sub(r'\.{2,}', '.', t)` (together with single
periods being left untouched, every period run becomes one period);
`inRun` records an open period run. -/
def collapseDotsAux (inRun : Bool) : List Char → List Char
  | [] => []
  | c :: cs =>
    if c == '.' then
      if inRun then collapseDotsAux true cs
      else '.' :: collapseDotsAux true cs
    else c :: collapseDotsAux false cs

/-- Wrapper for the period-run substitution. -/
def collapseDots (l : List Char) : List Char :=
  collapseDotsAux false l

/-- Scanner for `re.sub(r"(?<!s)' ", '', t)`: remove an
apostrophe-space pair unless the character before it (in the original
string, tracked by `prev`) is `s`. -/
def rqsAux (prev : Option Char) : List Char → List Char
  | [] => []
  | [c] => [c]
  | c :: c2 :: rest =>
    if c == apos && c2 == ' ' then
      if prev == some 's' then apos :: ' ' :: rqsAux (some ' ') rest
      else rqsAux (some ' ') rest
    else c :: rqsAux (some c) (c2 :: rest)

/-- Wrapper for the apostrophe-space removal. -/
def removeQuoteSpace (l : List Char) : List Char :=
  rqsAux none l

/-- Python `str.split()` with no arguments: split on whitespace runs,
discarding empty words; `cur` accumulates the current word in
reverse. -/
def wordsAux (cur : List Char) : List Char → List (List Char)
  | [] => if cur.isEmpty then [] else [cur.reverse]
  | c :: cs =>
    if pyIsSpace c then
      if cur.isEmpty then wordsAux [] cs
      else cur.reverse :: wordsAux [] cs
    else wordsAux (c :: cur) cs

/-- The statement
`' '.join([word for word in cleaned_text.split() if 'u200b' not in word])`:
drop every whitespace-delimited word containing the literal text
`u200b`, rejoining with single spaces. -/
def u200bFilter (l : List Char) : List Char :=
  joinSpace ((wordsAux [] l).filter fun w => !containsSub "u200b".data w)

/-- The `abbreviations` table of `clean_content`, in source (insertion)
order.  Note the trailing space in the expansion of `U.S.`. -/
def abbreviations : List (List Char × List Char) :=
  [ ("U.S.".data, "United States ".data),
    ("U.K.".data, "United Kingdom".data),
    ("E.U.".data, "European Union".data),
    ("U.A.E.".data, "United Arab Emirates".data),
    ("U.N.".data, "United Nations".data),
    ("U.S.S.R.".data, "Soviet Union".data) ]

/-- The abbreviation-expansion loop
`for abbr, full in abbreviations.items(): cleaned_text = cleaned_text.replace(abbr, full)`
with an explicit iteration order given by the table `tbl`. -/
def applyAbbrevsWith (tbl : List (List Char × List Char)) (l : List Char) : List Char :=
  tbl.foldl (fun t p => pyReplace p.1 p.2 t) l

/-- The block of ten literal `str.replace` calls that follows the
abbreviation expansion, in source order. -/
def finalReplaces (l : List Char) : List Char :=
  let t := pyReplace [' ', ndash, ' '] [' '] l
  let t := pyReplace [apos, ',', ' '] [' '] t
  let t := pyReplace [' ', apos, ' '] [' '] t
  let t := pyReplace [' ', apos] [' '] t
  let t := pyReplace [apos, ' ', 's'] [apos, 's'] t
  let t := pyReplace [' ', apos] [' '] t
  let t := pyReplace [' ', ' '] [' '] t
  let t := pyReplace [rbrace, ')', ',', ' '] [] t
  let t := pyReplace [apos, '.'] ['.'] t
  let t := pyReplace "pv magazine".data "PV Magazine".data t
  t

/-- Scanner for `re.sub(r'\.(?! [A-Z])', '', t)`: delete a period not
followed by a space and an ASCII capital letter. -/
def dotCapAux : List Char → List Char
  | [] => []
  | '.' :: c2 :: c3 :: rest =>
    if c2 == ' ' && isUpperAZ c3 then '.' :: ' ' :: dotCapAux (c3 :: rest)
    else dotCapAux (c2 :: c3 :: rest)
  | '.' :: cs => dotCapAux cs
  | c :: cs => c :: dotCapAux cs

/-- The fixed cookie-consent sentence removed verbatim at the end of
`clean_content`. -/
def cookieText : List Char :=
  "By clicking Allow All you agree to the storing of cookies on your device to enhance site navigation, analyse site usage and support us in providing free open access scientific content. More info. ".data

/-- Artifact Stripper and Abbreviation Expander: the whole chain of
substitutions `clean_content` applies to the joined text, in source
order. -/
def cleanJoined (t0 : List Char) : List Char :=
  let t := normQuotes t0
  let t := subBraces t
  let t := subDojo t
  let t := subMisc t
  let t := collapseWsStrip t
  let t := removeQuoteBracketChars t
  let t := spacePunct t
  let t := dashSub t
  let t := collapseWsStrip t
  let t := pyReplace ['(', ' '] ['('] t
  let t := pyReplace ['.', ','] ['.'] t
  let t := removeNonAscii t
  let t := collapseDots t
  let t := removeQuoteSpace t
  let t := u200bFilter t
  let t := applyAbbrevsWith abbreviations t
  let t := finalReplaces t
  let t := dotCapAux t
  let t := pyReplace cookieText [] t
  t

/-- The full `clean_content` pipeline: segment, truncate boilerplate,
join the stripped fragments with single spaces, and apply the cleanup
chain.  `none` models the `IndexError` of `sentences[0]` (which, as
proved below, cannot occur). -/
def cleanContent (content : String) : Option String :=
  match truncateFragments (segmentContent content) with
  | none => none
  | some frags => some (String.mk (cleanJoined (joinSpace (frags.map pyStrip))))

/-- Two passes of the pipeline, for the idempotence question. -/
def cleanTwice (s : String) : Option String :=
  (cleanContent s).bind cleanContent

/-- Metadata dictionary of a retrieved chunk: may carry a `text`
field (Python accesses it with `.get('text', '')`). -/
structure ChunkMeta where
  text : Option String

/-- A retrieved chunk as consumed by `generate_answer`: may carry a
`metadata` dictionary (Python accesses it with `.get('metadata', {})`). -/
structure Chunk where
  metadata : Option ChunkMeta

/-- Python `chunk.get('metadata', {}).get('text', '')`. -/
def chunkText (c : Chunk) : String :=
  (c.metadata.bind ChunkMeta.text).getD ""

/-- Python `" ".join(chunk.get('metadata', {}).get('text', '') for chunk in chunks)`. -/
def composeContext (chunks : List Chunk) : List Char :=
  joinSpace (chunks.map fun c => (chunkText c).data)

/-- Observable outcome of `generate_answer`: either the fixed
fallback string is returned without any chat-completion request, or
a chat-completion request carrying the composed context and the
query is issued (whose response post-processing is irrelevant to the
guard). -/
inductive GenStep where
  | fixedAnswer (answer : String)
  | callApi (context query : String)

/-- The fixed fallback answer of `generate_answer`. -/
def insufficientAnswer : String :=
  "The provided context does not contain sufficient information to answer the query."

/-- The guard logic of `generate_answer`: compose the context from the
chunks and, when it is empty after stripping whitespace
(`if not context.strip():`), return the fixed fallback without
invoking the chat-completion API. -/
def generateAnswer (query : String) (chunks : List Chunk) : GenStep :=
  let context := composeContext chunks
  if (pyStrip context).isEmpty then GenStep.fixedAnswer insufficientAnswer
  else GenStep.callApi (String.mk context) query

/-- Literal input of scenario 1 (claim C1). -/
def c1Input : String :=
  "['Hello world. This is a test.', 'Thank you for subscribing to the email newsletter.', 'ignored tail']"

/-- A 12-fragment sequence whose fragment zero contains the site-banner
marker, for claim C2: the truncator drops the first 11 fragments, so
its output starts at the last fragment and is not a prefix. -/
def c2Input : List (List Char) :=
  bannerMarker :: (List.replicate 10 "b".data ++ ["c".data])

/-- Literal input of scenario 2 (claim C4). -/
def c4Input : String := "U.S. and U.K. leaders met"

/-- Actual pipeline output on `c4Input`. -/
def c4Output : String := "United States and United Kingdom leaders met"

/-- Chunks with missing metadata, missing text, and empty text, for
the witness of claim C10. -/
def c10Chunks : List Chunk :=
  [⟨none⟩, ⟨some ⟨none⟩⟩, ⟨some ⟨some ""⟩⟩]

/-- The splitting scanner always emits at least one fragment, exactly
as Python `re.split` always returns a nonempty list. -/
theorem splitAux_ne_nil : ∀ (fuel : Nat) (prev : Option Char) (cur : List Char)
    (acc : List (List Char)) (l : List Char), splitAux fuel prev cur acc l ≠ [] := by
  intro fuel
  induction fuel with
  | zero =>
    intro prev cur acc l
    cases l <;> simp [splitAux]
  | succ f ih =>
    intro prev cur acc l
    cases l with
    | nil => simp [splitAux]
    | cons c cs =>
      simp only [splitAux]
      cases h : trySplitDelim prev (c :: cs) with
      | none => exact ih _ _ _ _
      | some p =>
        obtain ⟨lastc, r⟩ := p
        exact ih _ _ _ _

/-- The stop-phrase scan keeps a leading segment of its input. -/
theorem stopScanWith_front (phrases : List (List Char)) :
    ∀ l : List (List Char), stopScanWith phrases l <+: l := by
  intro l
  induction l with
  | nil => exact ⟨[], rfl⟩
  | cons s rest ih =>
    cases h : phrases.any (fun p => containsSub p s) with
    | true => exact ⟨s :: rest, by simp [stopScanWith, h]⟩
    | false =>
      obtain ⟨t, ht⟩ := ih
      exact ⟨t, by simp [stopScanWith, h, ht]⟩

/-- The stop-phrase scan is exactly `takeWhile` of the no-phrase-hits
predicate. -/
theorem stopScanWith_eq_takeWhile (phrases : List (List Char)) :
    ∀ l : List (List Char),
      stopScanWith phrases l =
        l.takeWhile fun s => !(phrases.any fun p => containsSub p s) := by
  intro l
  induction l with
  | nil => rfl
  | cons s rest ih =>
    cases h : phrases.any (fun p => containsSub p s) with
    | true => simp [stopScanWith, h, List.takeWhile_cons]
    | false => simp [stopScanWith, h, List.takeWhile_cons, ih]

/-- A sequence with no stop-phrase hits passes through the scan
unchanged. -/
theorem stopScanWith_eq_self (phrases : List (List Char)) :
    ∀ l : List (List Char),
      (∀ s ∈ l, (phrases.any fun p => containsSub p s) = false) →
      stopScanWith phrases l = l := by
  intro l
  induction l with
  | nil => intro _; rfl
  | cons s rest ih =>
    intro hall
    have hs := hall s (by simp)
    simp [stopScanWith, hs, ih fun x hx => hall x (List.mem_cons_of_mem _ hx)]

/-- Permuting a list does not change `List.any`. -/
theorem any_perm_eq {α : Type} (f : α → Bool) {l₁ l₂ : List α} (h : l₁.Perm l₂) :
    l₁.any f = l₂.any f := by
  cases h₁ : l₁.any f with
  | true =>
    rw [List.any_eq_true] at h₁
    obtain ⟨x, hx, hfx⟩ := h₁
    exact (List.any_eq_true.mpr ⟨x, h.mem_iff.mp hx, hfx⟩).symm
  | false =>
    rw [List.any_eq_false] at h₁
    exact (List.any_eq_false.mpr fun x hx => h₁ x (h.mem_iff.mpr hx)).symm

/-- The stop-phrase scan depends on the phrase table only up to
permutation. -/
theorem stopScanWith_congr {phrases : List (List Char)}
    (h : phrases.Perm stopPhrases) :
    ∀ l : List (List Char), stopScanWith phrases l = stopScanWith stopPhrases l := by
  intro l
  induction l with
  | nil => rfl
  | cons s rest ih =>
    have he : phrases.any (fun p => containsSub p s) =
        stopPhrases.any (fun p => containsSub p s) := any_perm_eq _ h
    cases hh : stopPhrases.any (fun p => containsSub p s) with
    | true => simp [stopScanWith, he, hh]
    | false => simp [stopScanWith, he, hh, ih]

/-- Joining all-empty fragments yields only space characters. -/
theorem joinSpace_all_space : ∀ l : List (List Char),
    (∀ x ∈ l, x = []) → ∀ c ∈ joinSpace l, c = ' ' := by
  intro l
  induction l with
  | nil => intro _ c hc; simp [joinSpace] at hc
  | cons s rest ih =>
    intro h c hc
    cases rest with
    | nil =>
      rw [show joinSpace [s] = s from rfl, h s (by simp)] at hc
      simp at hc
    | cons s2 r2 =>
      rw [show joinSpace (s :: s2 :: r2) = s ++ ' ' :: joinSpace (s2 :: r2) from rfl,
        h s (by simp)] at hc
      simp only [List.nil_append, List.mem_cons] at hc
      rcases hc with rfl | hc
      · rfl
      · exact ih (fun x hx => h x (List.mem_cons_of_mem _ hx)) c hc

/-- Stripping an all-space string yields the empty string. -/
theorem pyStrip_all_space : ∀ l : List Char, (∀ c ∈ l, c = ' ') → pyStrip l = [] := by
  intro l h
  have h1 : l.dropWhile pyIsSpace = [] := by
    induction l with
    | nil => rfl
    | cons c cs ih =>
      rw [List.dropWhile_cons]
      rw [h c (by simp)]
      simp only [show pyIsSpace ' ' = true from rfl, if_pos]
      exact ih fun x hx => h x (List.mem_cons_of_mem _ hx)
  simp [pyStrip, pyStripChars, h1]

/-- C1 (counterexample): on the literal scenario-1 input the pipeline
does not return the spec's claimed text "Hello world. This is a test.":
the fragment-leading apostrophe survives (only brackets are stripped
from the raw ends) and the final period is deleted by the trailing
period-cleanup substitution. -/
theorem C1_counterexample :
    cleanContent c1Input ≠ some "Hello world. This is a test." := by
  decide

/-- C1 (amended): on the literal scenario-1 input the fragment
sequence is truncated right before the fragment containing "Thank you
for subscribing to the email newsletter.", and the cleaned text is
exactly "'Hello world. This is a test" (leading apostrophe kept,
trailing period removed). -/
theorem C1_pipeline_literal :
    truncateFragments (segmentContent c1Input) =
      some ["'Hello world.".data, "This is a test.".data] ∧
    cleanContent c1Input = some "'Hello world. This is a test" := by
  exact ⟨rfl, rfl⟩

/-- C2 (counterexample): when fragment zero contains the site-banner
marker the truncator output need not be a prefix of the input: on a
12-fragment input whose last fragment differs from the first, the
output is the last fragment alone. -/
theorem C2_counterexample :
    truncateFragments c2Input = some ["c".data] ∧ ¬(["c".data] <+: c2Input) := by
  constructor
  · decide
  · rintro ⟨t, ht⟩
    have hhd : "c".data = bannerMarker := by
      have h2 := congrArg (fun l => l.headD ([] : List Char)) ht
      simpa [c2Input] using h2
    exact absurd hhd (by decide)

/-- C2 (amended): the Boilerplate Truncator output is always a
contiguous infix of its input (no reordering, no insertion), and it is
a prefix whenever fragment zero does not contain the site-banner
marker; when the marker is present the output is a prefix of the input
with its first 11 fragments dropped. -/
theorem C2_truncate_contiguous :
    ∀ (l r : List (List Char)), truncateFragments l = some r →
      (∃ pre post, pre ++ (r ++ post) = l) ∧
      (containsSub bannerMarker (l.headD []) = false → r <+: l) ∧
      (containsSub bannerMarker (l.headD []) = true → r <+: l.drop 11) := by
  intro l r h
  cases l with
  | nil => simp [truncateFragments] at h
  | cons s0 rest =>
    simp only [truncateFragments, Option.some.injEq] at h
    cases hb : containsSub bannerMarker s0 with
    | true =>
      simp only [hb, if_true] at h
      have hpre : r <+: (s0 :: rest).drop 11 := by
        rw [← h]; exact stopScanWith_front _ _
      obtain ⟨t, ht⟩ := hpre
      refine ⟨⟨(s0 :: rest).take 11, t, ?_⟩, ?_, ?_⟩
      · rw [ht]
        exact List.take_append_drop 11 (s0 :: rest)
      · intro hfalse
        rw [List.headD_cons] at hfalse
        exact absurd hfalse (by simp [hb])
      · intro _
        exact ⟨t, ht⟩
    | false =>
      simp only [hb, Bool.false_eq_true, if_false] at h
      have hpre : r <+: (s0 :: rest) := by
        rw [← h]; exact stopScanWith_front _ _
      obtain ⟨t, ht⟩ := hpre
      refine ⟨⟨[], t, by simpa using ht⟩, fun _ => ⟨t, ht⟩, ?_⟩
      intro htrue
      rw [List.headD_cons] at htrue
      exact absurd htrue (by simp [hb])

/-- Witness for C2 on the concrete 12-fragment banner input `c2Input`:
the truncator output is a contiguous infix and, the marker being
present in fragment zero, a prefix of the input with its first 11
fragments dropped. -/
theorem C2_truncate_contiguous_witness :
    (∃ pre post, pre ++ ([("c".data)] ++ post) = c2Input) ∧
    (containsSub bannerMarker (c2Input.headD []) = false →
      [("c".data)] <+: c2Input) ∧
    (containsSub bannerMarker (c2Input.headD []) = true →
      [("c".data)] <+: c2Input.drop 11) :=
  C2_truncate_contiguous c2Input ["c".data] (by decide)

/-- C3 (counterexample): "U.S." is a substring of the key "U.S.S.R.",
and the six replacements are order-sensitive: on input "U.S.S.R." the
table order and the reversed order yield different strings. -/
theorem C3_counterexample :
    containsSub "U.S.".data "U.S.S.R.".data = true ∧
    applyAbbrevsWith abbreviations "U.S.S.R.".data ≠
      applyAbbrevsWith abbreviations.reverse "U.S.S.R.".data := by
  exact ⟨rfl, by decide⟩

/-- C3 (amended): exactly one ordered pair of distinct keys of the
abbreviation table is in the substring relation, namely "U.S." inside
"U.S.S.R.", and consequently iteration order matters: in the code's
table order the input "U.S.S.R." becomes "United States S.R." (the
"U.S.S.R." entry never fires), while applying the reversed order
yields "Soviet Union". -/
theorem C3_order_sensitivity :
    (abbreviations.all fun p₁ => abbreviations.all fun p₂ =>
      !containsSub p₁.1 p₂.1 || p₁.1 == p₂.1 ||
        (p₁.1 == "U.S.".data && p₂.1 == "U.S.S.R.".data)) = true ∧
    containsSub "U.S.".data "U.S.S.R.".data = true ∧
    applyAbbrevsWith abbreviations "U.S.S.R.".data = "United States S.R.".data ∧
    applyAbbrevsWith abbreviations.reverse "U.S.S.R.".data = "Soviet Union".data := by
  refine ⟨by decide, rfl, rfl, rfl⟩

/-- C4 (counterexample): the scenario-2 input contains the phrase, yet
the pipeline output does not contain the double-space expansion
claimed by the spec, because the later literal replacement of two
spaces by one collapses it. -/
theorem C4_counterexample :
    containsSub "U.S. and U.K. leaders met".data c4Input.data = true ∧
    cleanContent c4Input = some c4Output ∧
    containsSub "United States  and United Kingdom leaders met".data c4Output.data
      = false := by
  refine ⟨rfl, rfl, by decide⟩

/-- C4 (amended): on the scenario-2 input the output contains
"United States and United Kingdom leaders met": the trailing double
space introduced by the expansion of "U.S." is collapsed to a single
space by the subsequent replacement of double spaces. -/
theorem C4_abbrev_expansion :
    cleanContent c4Input = some c4Output ∧
    containsSub "United States and United Kingdom leaders met".data c4Output.data
      = true := by
  exact ⟨rfl, rfl⟩

/-- C5 (counterexample): the Sentence Segmenter applied to the empty
string does not yield an empty fragment sequence. -/
theorem C5_counterexample : segmentContent "" ≠ ([] : List (List Char)) := by
  decide

/-- C5 (amended): on the empty input the segmenter yields the
one-element sequence containing the empty fragment, as Python
`re.split` never returns an empty list; the whole pipeline then maps
the empty string to the empty string. -/
theorem C5_empty_input : segmentContent "" = [[]] ∧ cleanContent "" = some "" := by
  exact ⟨rfl, rfl⟩

/-- C6: the pipeline is a total pure function: for every input string
it returns a result (in particular the `sentences[0]` access is always
defined because the split always yields at least one fragment, and
every substitution stage is a total function). -/
theorem C6_clean_content_total : ∀ s : String, ∃ t : String, cleanContent s = some t := by
  intro s
  cases hseg : segmentContent s with
  | nil => exact absurd hseg (splitAux_ne_nil _ _ _ _ _)
  | cons s0 rest =>
    refine ⟨String.mk (cleanJoined (joinSpace (List.map pyStrip
      (stopScanWith stopPhrases
        (if containsSub bannerMarker s0 then List.drop 11 (s0 :: rest)
         else s0 :: rest))))), ?_⟩
    simp only [cleanContent, hseg, truncateFragments]

/-- C7: the stop-phrase scan returns exactly the fragments strictly
before the first fragment containing any stop phrase as a
case-sensitive substring (a `takeWhile`); it returns the sequence
unchanged when no fragment contains a stop phrase; and the result does
not depend on the order of the stop-phrase table. -/
theorem C7_stop_scan_spec :
    ∀ l : List (List Char),
      stopScanWith stopPhrases l =
        (l.takeWhile fun s => !(stopPhrases.any fun p => containsSub p s)) ∧
      ((∀ s ∈ l, (stopPhrases.any fun p => containsSub p s) = false) →
        stopScanWith stopPhrases l = l) ∧
      (∀ phrases : List (List Char), phrases.Perm stopPhrases →
        stopScanWith phrases l = stopScanWith stopPhrases l) := by
  intro l
  exact ⟨stopScanWith_eq_takeWhile _ l, stopScanWith_eq_self _ l,
    fun phrases h => stopScanWith_congr h l⟩

/-- Witness for C7: a clean one-fragment input passes unchanged, and
the reversed table gives the same result. -/
theorem C7_stop_scan_spec_witness :
    stopScanWith stopPhrases ["ok".data] = [("ok".data)] ∧
    stopScanWith stopPhrases.reverse ["ok".data] =
      stopScanWith stopPhrases ["ok".data] :=
  ⟨(C7_stop_scan_spec ["ok".data]).2.1 (by decide),
   (C7_stop_scan_spec ["ok".data]).2.2 stopPhrases.reverse (List.reverse_perm _)⟩

/-- C8: the pipeline deletes non-ASCII characters outright: input
"café" yields "caf". -/
theorem C8_non_ascii_dropped : cleanContent "café" = some "caf" := by
  exact rfl

/-- C9 (counterexample): the pipeline is not idempotent: on input
"U.S." a second pass changes the first pass's output. -/
theorem C9_counterexample : cleanTwice "U.S." ≠ cleanContent "U.S." := by
  decide

/-- C9 (amended): running the pipeline twice need not reproduce the
single-pass output: for input "U.S." the first pass yields
"United States " (trailing space from the expansion table) and the
second pass strips that trailing space, so idempotence fails. -/
theorem C9_not_idempotent :
    cleanContent "U.S." = some "United States " ∧
    cleanTwice "U.S." = some "United States" := by
  exact ⟨rfl, rfl⟩

/-- C10: when every chunk's metadata text is empty or missing, the
composed context is whitespace-only, and `generate_answer` returns the
fixed insufficient-context answer without invoking the
chat-completion API. -/
theorem C10_generate_answer_guard :
    ∀ (query : String) (chunks : List Chunk),
      (∀ c ∈ chunks, chunkText c = "") →
      generateAnswer query chunks = GenStep.fixedAnswer insufficientAnswer := by
  intro query chunks h
  have hall : ∀ x ∈ chunks.map (fun c => (chunkText c).data), x = [] := by
    intro x hx
    simp only [List.mem_map] at hx
    obtain ⟨c, hc, rfl⟩ := hx
    rw [h c hc]
  have hsp := joinSpace_all_space _ hall
  have hstrip : pyStrip (composeContext chunks) = [] := pyStrip_all_space _ hsp
  simp [generateAnswer, hstrip]

/-- Witness for C10 on chunks with missing metadata, missing text, and
empty text. -/
theorem C10_generate_answer_guard_witness :
    generateAnswer "What was announced?" c10Chunks =
      GenStep.fixedAnswer insufficientAnswer :=
  C10_generate_answer_guard "What was announced?" c10Chunks (by decide)

end RagChain

